import Mathlib

/-!
# Verification of the transaction codec core (`src/primitives/src/transaction.rs`)

A shallow embedding of the transaction serialization core.  Bytes are
modelled as `Nat`, byte buffers as `List Nat`.  The Rust trait
`Slicable` has three operations:

* `from_slice(value: &mut &[u8]) -> Option<Self>` — consume a value from
  the front of a cursor over a byte slice; modelled as a state-passing
  function `List Byte → Option (α × List Byte)` returning the decoded
  value together with the remaining bytes of the cursor;
* `to_vec(&self) -> Vec<u8>` — encode to bytes, modelled as
  `α → List Byte`;
* `as_slice_then(&self, f)` — scoped access to the encoded bytes.

The field types of the two composites (`AccountId`, `TxOrder`,
`Function`, `Signature`) are external collaborators: only their codec
contract matters here, so composite operations are parametrised by a
`SlicableImpl` record per field, and theorems take the codec-protocol
laws (`RoundTrips`, `FailsOnShort`) as hypotheses on the field values
involved.  Concrete instances of the field codecs, modelled from the
spec, instantiate every hypothesis on the spec's concrete scenario.
-/

namespace Substrate

/-- A byte of a buffer (the embedding of `u8`; values of interest are `< 256`,
but no theorem below needs that bound). -/
abbrev Byte := Nat

/-- The embedding of the Rust trait `Slicable` (the codec protocol): one
record of the two codec operations for a field type.  `fromSlice` is the
state-passing form of `from_slice(&mut &[u8])`: it returns the decoded value
and the advanced cursor, or `none` on decode failure. -/
structure SlicableImpl (α : Type) where
  fromSlice : List Byte → Option (α × List Byte)
  toVec : α → List Byte

/-- Modelled from the spec: scoped-byte-access for a field type.  The codec
protocol (§4.1) requires `as_slice_then(value, f)` of every conforming field
type to be behaviorally equivalent to encoding and passing a view of the
bytes, which is how the composites below consume it. -/
def SlicableImpl.asSliceThen {α : Type} {R : Type} (c : SlicableImpl α)
    (a : α) (f : List Byte → R) : R :=
  f (c.toVec a)

/-- The codec-protocol law "encode then decode from a prefix succeeds":
decoding a buffer that starts with the encoding of `a` yields `a` and leaves
exactly the trailing bytes.  Composite decoding relies on the fields being
self-delimiting in this sense (spec §4.1). -/
def RoundTrips {α : Type} (c : SlicableImpl α) (a : α) : Prop :=
  ∀ rest : List Byte, c.fromSlice (c.toVec a ++ rest) = some (a, rest)

/-- The codec-protocol law "decode fails on insufficient bytes": decoding any
strict prefix of the encoding of `a` fails (spec §4.1, §7). -/
def FailsOnShort {α : Type} (c : SlicableImpl α) (a : α) : Prop :=
  ∀ p q : List Byte, p ++ q = c.toVec a → q ≠ [] → c.fromSlice p = none

/-- The Transaction record (`struct Transaction`): signer, nonce and function
fields, of the external field types `A`, `T`, `F`. -/
structure Transaction (A T F : Type) where
  signed : A
  nonce : T
  function : F
deriving DecidableEq

namespace Transaction

variable {A T F : Type}

/-- `Transaction::from_slice`: decode signer, nonce, function in order from
the same cursor; `try_opt!` aborts with `None` as soon as a field decode
fails. -/
def from_slice (cA : SlicableImpl A) (cT : SlicableImpl T) (cF : SlicableImpl F)
    (value : List Byte) : Option (Transaction A T F × List Byte) :=
  match cA.fromSlice value with
  | none => none
  | some (signed, value) =>
    match cT.fromSlice value with
    | none => none
    | some (nonce, value) =>
      match cF.fromSlice value with
      | none => none
      | some (function, value) => some (⟨signed, nonce, function⟩, value)

/-- `Transaction::to_vec`: start from an empty vector and extend it with the
bytes of signer, nonce, function in order, observed through each field's
`as_slice_then`. -/
def to_vec (cA : SlicableImpl A) (cT : SlicableImpl T) (cF : SlicableImpl F)
    (t : Transaction A T F) : List Byte :=
  let v : List Byte := []
  let v := cA.asSliceThen t.signed (fun s => v ++ s)
  let v := cT.asSliceThen t.nonce (fun s => v ++ s)
  let v := cF.asSliceThen t.function (fun s => v ++ s)
  v

/-- `Transaction::as_slice_then`: apply the action to a view of `to_vec`. -/
def as_slice_then {R : Type} (cA : SlicableImpl A) (cT : SlicableImpl T)
    (cF : SlicableImpl F) (t : Transaction A T F) (f : List Byte → R) : R :=
  f (to_vec cA cT cF t)

/-- The structural equality of `#[derive(PartialEq)]` on `Transaction`:
field-by-field comparison of signer, nonce, function. -/
def beq [DecidableEq A] [DecidableEq T] [DecidableEq F]
    (t₁ t₂ : Transaction A T F) : Bool :=
  decide (t₁.signed = t₂.signed) &&
    (decide (t₁.nonce = t₂.nonce) && decide (t₁.function = t₂.function))

end Transaction

/-- The signed wrapper (`struct UncheckedTransaction`): a Transaction record
plus a signature of the external field type `S`. -/
structure UncheckedTransaction (A T F S : Type) where
  transaction : Transaction A T F
  signature : S

namespace UncheckedTransaction

variable {A T F S : Type}

/-- `UncheckedTransaction::from_slice`: decode a full Transaction record from
the cursor (through `Transaction::from_slice`), then the signature from the
remaining cursor; abort with `None` if either step fails. -/
def from_slice (cA : SlicableImpl A) (cT : SlicableImpl T) (cF : SlicableImpl F)
    (cS : SlicableImpl S) (value : List Byte) :
    Option (UncheckedTransaction A T F S × List Byte) :=
  match Transaction.from_slice cA cT cF value with
  | none => none
  | some (transaction, value) =>
    match cS.fromSlice value with
    | none => none
    | some (signature, value) => some (⟨transaction, signature⟩, value)

/-- `UncheckedTransaction::to_vec`: extend an empty vector with the inner
transaction's signer, nonce and function bytes directly (flattened, not via
`Transaction::to_vec`), then the signature bytes. -/
def to_vec (cA : SlicableImpl A) (cT : SlicableImpl T) (cF : SlicableImpl F)
    (cS : SlicableImpl S) (w : UncheckedTransaction A T F S) : List Byte :=
  let v : List Byte := []
  let v := cA.asSliceThen w.transaction.signed (fun s => v ++ s)
  let v := cT.asSliceThen w.transaction.nonce (fun s => v ++ s)
  let v := cF.asSliceThen w.transaction.function (fun s => v ++ s)
  let v := cS.asSliceThen w.signature (fun s => v ++ s)
  v

/-- `UncheckedTransaction::as_slice_then`: apply the action to a view of
`to_vec`. -/
def as_slice_then {R : Type} (cA : SlicableImpl A) (cT : SlicableImpl T)
    (cF : SlicableImpl F) (cS : SlicableImpl S)
    (w : UncheckedTransaction A T F S) (f : List Byte → R) : R :=
  f (to_vec cA cT cF cS w)

/-- Element-wise equality of two byte iterators, the embedding of
`Iterator::eq` on `signature.iter()`. -/
def iterEq : List Byte → List Byte → Bool
  | [], [] => true
  | x :: xs, y :: ys => (x == y) && iterEq xs ys
  | _, _ => false

/-- The custom `PartialEq for UncheckedTransaction`: element-wise equality of
the signature byte sequences (observed through `sigIter`, the embedding of
`Signature::iter`), and structural equality of the inner transactions. -/
def eq [DecidableEq A] [DecidableEq T] [DecidableEq F]
    (sigIter : S → List Byte) (w₁ w₂ : UncheckedTransaction A T F S) : Bool :=
  iterEq (sigIter w₁.signature) (sigIter w₂.signature) &&
    Transaction.beq w₁.transaction w₂.transaction

/-- The custom `fmt::Debug for UncheckedTransaction`: render
`"UncheckedTransaction(..)"` around the inner transaction's rendering
(`tFmt`, the embedding of the record's derived `Debug`); the signature does
not appear. -/
def fmtDebug (tFmt : Transaction A T F → String)
    (w : UncheckedTransaction A T F S) : String :=
  "UncheckedTransaction(" ++ tFmt w.transaction ++ ")"

end UncheckedTransaction

/-! ## Concrete field codecs

Modelled from the spec: the concrete field types `AccountId`, `TxOrder`,
`Function` and `Signature` live outside this core (spec §1 treats them as
external collaborators; §9 fixes account identifiers and signatures as
fixed-width byte sequences, the nonce as a fixed-width unsigned integer, and
the function as a tagged variant).  These instances exist to exercise the
parametric theorems on the spec's concrete scenario (§8): a 32-byte account
identifier, a little-endian `u64` nonce, a "set timestamp" function variant
and a 64-byte signature. -/

/-- Modelled from the spec: a fixed-width byte-sequence codec of width `n`
(used for the 32-byte `AccountId` and the 64-byte `Signature`, whose own
encodings are external to this core).  Decode consumes exactly `n` bytes or
fails; encode emits the bytes themselves. -/
def fixedCodec (n : Nat) : SlicableImpl (List Byte) where
  fromSlice v := if n ≤ v.length then some (v.take n, v.drop n) else none
  toVec a := a

/-- The little-endian bytes of a `u64` value (least-significant first). -/
def u64ToBytes (x : Nat) : List Byte :=
  [x % 256, x / 256 % 256, x / 256 / 256 % 256, x / 256 / 256 / 256 % 256,
   x / 256 / 256 / 256 / 256 % 256, x / 256 / 256 / 256 / 256 / 256 % 256,
   x / 256 / 256 / 256 / 256 / 256 / 256 % 256,
   x / 256 / 256 / 256 / 256 / 256 / 256 / 256 % 256]

/-- Modelled from the spec: the fixed-width unsigned-integer codec for the
`TxOrder` nonce (external to this core), as an 8-byte little-endian `u64`. -/
def u64Codec : SlicableImpl Nat where
  fromSlice v :=
    match v with
    | b₀ :: b₁ :: b₂ :: b₃ :: b₄ :: b₅ :: b₆ :: b₇ :: rest =>
        some (b₀ + 256 * (b₁ + 256 * (b₂ + 256 * (b₃ + 256 * (b₄ + 256 *
          (b₅ + 256 * (b₆ + 256 * b₇)))))), rest)
    | _ => none
  toVec := u64ToBytes

/-- Modelled from the spec: the tagged `Function` payload (external to this
core), restricted to the variant the spec's concrete scenario uses. -/
inductive Function : Type where
  | timestampSet (t : Nat)
deriving DecidableEq

/-- Modelled from the spec: the `Function` codec — a discriminant tag byte
followed by the variant's fields (spec §9); `timestampSet` carries a `u64`. -/
def functionCodec : SlicableImpl Function where
  fromSlice v :=
    match v with
    | 0 :: rest =>
        match u64Codec.fromSlice rest with
        | none => none
        | some (t, rest) => some (.timestampSet t, rest)
    | _ => none
  toVec x :=
    match x with
    | .timestampSet t => 0 :: u64ToBytes t

/-- The concrete scenario of spec §8: signer of 32 bytes all `1`, nonce `999`,
function "set timestamp `135135`". -/
def tx₀ : Transaction (List Byte) Nat Function :=
  ⟨List.replicate 32 1, 999, .timestampSet 135135⟩

/-- The concrete scenario's wrapper: `tx₀` with a 64-zero-byte signature. -/
def utx₀ : UncheckedTransaction (List Byte) Nat Function (List Byte) :=
  ⟨tx₀, List.replicate 64 0⟩

/-- A second wrapper around `tx₀` with a different (64-one-byte) signature,
for observing signature-independence of the rendering. -/
def utx₁ : UncheckedTransaction (List Byte) Nat Function (List Byte) :=
  ⟨tx₀, List.replicate 64 1⟩

/-! ### Codec-protocol laws for the concrete field codecs -/

lemma fixedCodec_roundTrips (n : Nat) (a : List Byte) (h : a.length = n) :
    RoundTrips (fixedCodec n) a := by
  intro rest
  simp [fixedCodec, RoundTrips, h, List.take_append, List.drop_append]

lemma fixedCodec_failsOnShort (n : Nat) (a : List Byte) (h : a.length = n) :
    FailsOnShort (fixedCodec n) a := by
  intro p q hpq hq
  have hlen : p.length + q.length = n := by
    have := congrArg List.length hpq
    simpa [fixedCodec, h] using this
  have hql : 0 < q.length := List.length_pos.mpr hq
  simp only [fixedCodec]
  rw [if_neg]
  omega

lemma u64Codec_fromSlice_short (p : List Byte) (h : p.length < 8) :
    u64Codec.fromSlice p = none := by
  rcases p with _ | ⟨a, _ | ⟨b, _ | ⟨c, _ | ⟨d, _ | ⟨e, _ | ⟨x, _ | ⟨y, _ | ⟨z, r⟩⟩⟩⟩⟩⟩⟩⟩
  all_goals first
    | rfl
    | (exfalso; simp at h; omega)

lemma u64Codec_failsOnShort (x : Nat) : FailsOnShort u64Codec x := by
  intro p q hpq hq
  have hlen : p.length + q.length = 8 := by
    have := congrArg List.length hpq
    simpa [u64Codec, u64ToBytes] using this
  have hql : 0 < q.length := List.length_pos.mpr hq
  exact u64Codec_fromSlice_short p (by omega)

lemma functionCodec_failsOnShort (t : Nat) :
    FailsOnShort functionCodec (.timestampSet t) := by
  intro p q hpq hq
  rcases p with _ | ⟨b, p'⟩
  · rfl
  · have hb : b = 0 ∧ p' ++ q = u64ToBytes t := by
      simpa [functionCodec] using hpq
    have hlen : p'.length + q.length = 8 := by
      have := congrArg List.length hb.2
      simpa [u64ToBytes] using this
    have hql : 0 < q.length := List.length_pos.mpr hq
    have hshort := u64Codec_fromSlice_short p' (by omega)
    simp [functionCodec, hb.1, hshort]

lemma u64Codec_roundTrips_999 : RoundTrips u64Codec 999 := fun _ => rfl

lemma functionCodec_roundTrips_ts :
    RoundTrips functionCodec (.timestampSet 135135) := fun _ => rfl

/-! ### General decoding lemmas -/

/-- The encodings flattened by `Transaction::to_vec`: signer, nonce, function
bytes in order. -/
lemma Transaction.to_vec_flattened {A T F : Type} (cA : SlicableImpl A)
    (cT : SlicableImpl T) (cF : SlicableImpl F) (t : Transaction A T F) :
    Transaction.to_vec cA cT cF t =
      cA.toVec t.signed ++ (cT.toVec t.nonce ++ cF.toVec t.function) := by
  simp [Transaction.to_vec, SlicableImpl.asSliceThen, List.append_assoc]

/-- The encodings flattened by `UncheckedTransaction::to_vec`: signer, nonce,
function, signature bytes in order. -/
lemma UncheckedTransaction.to_vec_fields {A T F S : Type} (cA : SlicableImpl A)
    (cT : SlicableImpl T) (cF : SlicableImpl F) (cS : SlicableImpl S)
    (w : UncheckedTransaction A T F S) :
    UncheckedTransaction.to_vec cA cT cF cS w =
      cA.toVec w.transaction.signed ++ (cT.toVec w.transaction.nonce ++
        (cF.toVec w.transaction.function ++ cS.toVec w.signature)) := by
  simp [UncheckedTransaction.to_vec, SlicableImpl.asSliceThen, List.append_assoc]

/-- One step of decoding a truncated buffer: if `p ++ q` splits the
concatenation `toVec a ++ rest`, then decoding `p` with a lawful field codec
either fails outright (when `p` stops inside the encoding of `a`) or consumes
exactly the encoding of `a` and leaves a cursor `p'` with `p' ++ q = rest`. -/
lemma decode_step {α : Type} (c : SlicableImpl α) (a : α)
    (h₁ : RoundTrips c a) (h₂ : FailsOnShort c a)
    (p q rest : List Byte) (hpq : p ++ q = c.toVec a ++ rest) :
    c.fromSlice p = none ∨
      ∃ p', p = c.toVec a ++ p' ∧ p' ++ q = rest ∧ c.fromSlice p = some (a, p') := by
  rcases List.append_eq_append_iff.mp hpq with ⟨k, hk₁, hk₂⟩ | ⟨k, hk₁, hk₂⟩
  · rcases k with _ | ⟨b, k⟩
    · right
      have hp : p = c.toVec a := by simpa using hk₁.symm
      refine ⟨[], by simpa using hk₁.symm, by simpa using hk₂, ?_⟩
      have := h₁ []
      rw [List.append_nil] at this
      rw [hp]
      exact this
    · left
      exact h₂ p (b :: k) hk₁.symm (by simp)
  · right
    exact ⟨k, hk₁, hk₂.symm, hk₁ ▸ h₁ k⟩

/-- `iterEq` is element-wise equality of the byte sequences. -/
lemma iterEq_eq_true_iff :
    ∀ xs ys : List Byte, UncheckedTransaction.iterEq xs ys = true ↔ xs = ys
  | [], [] => by simp [UncheckedTransaction.iterEq]
  | [], _ :: _ => by simp [UncheckedTransaction.iterEq]
  | _ :: _, [] => by simp [UncheckedTransaction.iterEq]
  | x :: xs, y :: ys => by
    simp [UncheckedTransaction.iterEq, iterEq_eq_true_iff xs ys]

/-- Characterisation of the wrapper's custom equality: signature iterators
equal as sequences, and all three transaction fields equal. -/
lemma UncheckedTransaction.eq_iff_parts {A T F S : Type}
    [DecidableEq A] [DecidableEq T] [DecidableEq F] (sigIter : S → List Byte)
    (w₁ w₂ : UncheckedTransaction A T F S) :
    UncheckedTransaction.eq sigIter w₁ w₂ = true ↔
      (sigIter w₁.signature = sigIter w₂.signature ∧
        (w₁.transaction.signed = w₂.transaction.signed ∧
          w₁.transaction.nonce = w₂.transaction.nonce ∧
          w₁.transaction.function = w₂.transaction.function)) := by
  simp [UncheckedTransaction.eq, Transaction.beq, Bool.and_eq_true,
    decide_eq_true_eq, iterEq_eq_true_iff, and_assoc]

/-- Decoding a buffer that starts with the three flattened transaction-field
encodings consumes them and yields the record, leaving the trailing bytes. -/
lemma Transaction.from_slice_append {A T F : Type} (cA : SlicableImpl A)
    (cT : SlicableImpl T) (cF : SlicableImpl F) (t : Transaction A T F)
    (rest : List Byte) (hA : RoundTrips cA t.signed) (hT : RoundTrips cT t.nonce)
    (hF : RoundTrips cF t.function) :
    Transaction.from_slice cA cT cF
      (cA.toVec t.signed ++ (cT.toVec t.nonce ++ (cF.toVec t.function ++ rest))) =
      some (t, rest) := by
  simp only [Transaction.from_slice,
    hA (cT.toVec t.nonce ++ (cF.toVec t.function ++ rest)),
    hT (cF.toVec t.function ++ rest), hF rest]

/-! ## The claims -/

/-- Claim C1: for every valid Transaction record `t` (fields whose codecs
satisfy the round-trip law on `t`'s field values), decoding the bytes of
`Transaction::to_vec t` via `Transaction::from_slice` yields `Some t`,
consuming the whole buffer. -/
theorem transaction_decode_encode_round_trip {A T F : Type}
    (cA : SlicableImpl A) (cT : SlicableImpl T) (cF : SlicableImpl F)
    (t : Transaction A T F) (hA : RoundTrips cA t.signed)
    (hT : RoundTrips cT t.nonce) (hF : RoundTrips cF t.function) :
    Transaction.from_slice cA cT cF (Transaction.to_vec cA cT cF t) =
      some (t, []) := by
  have h := Transaction.from_slice_append cA cT cF t [] hA hT hF
  rw [Transaction.to_vec_flattened]
  simpa using h

/-- Witness for C1: the spec's concrete transaction (32 one-bytes signer,
nonce 999, set-timestamp 135135) round-trips through the concrete codecs. -/
theorem transaction_decode_encode_round_trip_witness :
    Transaction.from_slice (fixedCodec 32) u64Codec functionCodec
      (Transaction.to_vec (fixedCodec 32) u64Codec functionCodec tx₀) =
      some (tx₀, []) :=
  transaction_decode_encode_round_trip (fixedCodec 32) u64Codec functionCodec tx₀
    (fixedCodec_roundTrips 32 (List.replicate 32 1) rfl)
    u64Codec_roundTrips_999 functionCodec_roundTrips_ts

/-- Claim C3: the wrapper's flattened encoding starts with exactly the bytes
of the record's own `to_vec`, and equals the record's `to_vec` followed by
the signature bytes. -/
theorem wrapper_encoding_has_record_as_front {A T F S : Type}
    (cA : SlicableImpl A) (cT : SlicableImpl T) (cF : SlicableImpl F)
    (cS : SlicableImpl S) (w : UncheckedTransaction A T F S) :
    (UncheckedTransaction.to_vec cA cT cF cS w).take
        (Transaction.to_vec cA cT cF w.transaction).length =
      Transaction.to_vec cA cT cF w.transaction ∧
    UncheckedTransaction.to_vec cA cT cF cS w =
      Transaction.to_vec cA cT cF w.transaction ++ cS.toVec w.signature := by
  have hflat : UncheckedTransaction.to_vec cA cT cF cS w =
      Transaction.to_vec cA cT cF w.transaction ++ cS.toVec w.signature := by
    rw [UncheckedTransaction.to_vec_fields, Transaction.to_vec_flattened]
    simp [List.append_assoc]
  refine ⟨?_, hflat⟩
  rw [hflat]
  exact List.take_left _ _

/-- Claim C4: wrapper equality holds exactly when the signature byte
sequences agree element-wise and the inner records agree structurally on
signer, nonce and function. -/
theorem wrapper_eq_iff_sig_bytes_and_fields {A T F S : Type}
    [DecidableEq A] [DecidableEq T] [DecidableEq F] (sigIter : S → List Byte)
    (w₁ w₂ : UncheckedTransaction A T F S) :
    UncheckedTransaction.eq sigIter w₁ w₂ = true ↔
      (sigIter w₁.signature = sigIter w₂.signature ∧
        (w₁.transaction.signed = w₂.transaction.signed ∧
          w₁.transaction.nonce = w₂.transaction.nonce ∧
          w₁.transaction.function = w₂.transaction.function)) :=
  UncheckedTransaction.eq_iff_parts sigIter w₁ w₂

/-- Claim C8: `as_slice_then` on either composite is exactly the action
applied to a view of the composite's `to_vec` bytes. -/
theorem as_slice_then_is_encode_then_apply {A T F S R₁ R₂ : Type}
    (cA : SlicableImpl A) (cT : SlicableImpl T) (cF : SlicableImpl F)
    (cS : SlicableImpl S) (t : Transaction A T F)
    (w : UncheckedTransaction A T F S) (f : List Byte → R₁) (g : List Byte → R₂) :
    Transaction.as_slice_then cA cT cF t f = f (Transaction.to_vec cA cT cF t) ∧
    UncheckedTransaction.as_slice_then cA cT cF cS w g =
      g (UncheckedTransaction.to_vec cA cT cF cS w) :=
  ⟨rfl, rfl⟩

/-- Claim C10: composite decoding is total — on every input buffer it
returns either `none` or some decoded value with a remaining cursor. -/
theorem decode_total_on_all_inputs {A T F S : Type}
    (cA : SlicableImpl A) (cT : SlicableImpl T) (cF : SlicableImpl F)
    (cS : SlicableImpl S) (v : List Byte) :
    (Transaction.from_slice cA cT cF v = none ∨
      ∃ t rest, Transaction.from_slice cA cT cF v = some (t, rest)) ∧
    (UncheckedTransaction.from_slice cA cT cF cS v = none ∨
      ∃ w rest, UncheckedTransaction.from_slice cA cT cF cS v = some (w, rest)) := by
  constructor
  · cases h : Transaction.from_slice cA cT cF v with
    | none => exact Or.inl rfl
    | some r => exact Or.inr ⟨r.1, r.2, rfl⟩
  · cases h : UncheckedTransaction.from_slice cA cT cF cS v with
    | none => exact Or.inl rfl
    | some r => exact Or.inr ⟨r.1, r.2, rfl⟩

/-- Claim C2: for every valid wrapper `w` (fields whose codecs satisfy the
round-trip law on `w`'s field values), decoding `UncheckedTransaction::to_vec w`
via `UncheckedTransaction::from_slice` succeeds, and the decoded wrapper
compares equal to `w` under the wrapper's custom equality — so a wrapper
built from fields and one built by decoding its own encoding compare
equal. -/
theorem wrapper_decode_encode_round_trip {A T F S : Type}
    [DecidableEq A] [DecidableEq T] [DecidableEq F]
    (cA : SlicableImpl A) (cT : SlicableImpl T) (cF : SlicableImpl F)
    (cS : SlicableImpl S) (sigIter : S → List Byte)
    (w : UncheckedTransaction A T F S)
    (hA : RoundTrips cA w.transaction.signed)
    (hT : RoundTrips cT w.transaction.nonce)
    (hF : RoundTrips cF w.transaction.function)
    (hS : RoundTrips cS w.signature) :
    ∃ w', UncheckedTransaction.from_slice cA cT cF cS
        (UncheckedTransaction.to_vec cA cT cF cS w) = some (w', []) ∧
      UncheckedTransaction.eq sigIter w' w = true := by
  refine ⟨w, ?_, ?_⟩
  · have hS' : cS.fromSlice (cS.toVec w.signature) = some (w.signature, []) := by
      simpa using hS []
    have ht := Transaction.from_slice_append cA cT cF w.transaction
      (cS.toVec w.signature) hA hT hF
    rw [UncheckedTransaction.to_vec_fields]
    simp only [UncheckedTransaction.from_slice, ht, hS']
  · exact (UncheckedTransaction.eq_iff_parts sigIter w w).mpr ⟨rfl, rfl, rfl, rfl⟩

/-- Witness for C2: the spec's concrete wrapper (`tx₀` with a 64-zero-byte
signature) round-trips and compares equal to itself after decoding. -/
theorem wrapper_decode_encode_round_trip_witness :
    ∃ w', UncheckedTransaction.from_slice (fixedCodec 32) u64Codec functionCodec
        (fixedCodec 64) (UncheckedTransaction.to_vec (fixedCodec 32) u64Codec
          functionCodec (fixedCodec 64) utx₀) = some (w', []) ∧
      UncheckedTransaction.eq (fun s => s) w' utx₀ = true :=
  wrapper_decode_encode_round_trip (fixedCodec 32) u64Codec functionCodec
    (fixedCodec 64) (fun s => s) utx₀
    (fixedCodec_roundTrips 32 (List.replicate 32 1) rfl)
    u64Codec_roundTrips_999 functionCodec_roundTrips_ts
    (fixedCodec_roundTrips 64 (List.replicate 64 0) rfl)

/-- Claim C5: composite decoding aborts with `none` as soon as any field's
decode fails — fields are consumed in declared order against the same cursor,
each later field reading the cursor its predecessor left, and no
half-constructed value is ever returned. -/
theorem decode_short_circuits_on_field_failure {A T F S : Type}
    (cA : SlicableImpl A) (cT : SlicableImpl T) (cF : SlicableImpl F)
    (cS : SlicableImpl S) :
    (∀ v, cA.fromSlice v = none → Transaction.from_slice cA cT cF v = none) ∧
    (∀ v a v₁, cA.fromSlice v = some (a, v₁) → cT.fromSlice v₁ = none →
      Transaction.from_slice cA cT cF v = none) ∧
    (∀ v a v₁ n v₂, cA.fromSlice v = some (a, v₁) → cT.fromSlice v₁ = some (n, v₂) →
      cF.fromSlice v₂ = none → Transaction.from_slice cA cT cF v = none) ∧
    (∀ v, Transaction.from_slice cA cT cF v = none →
      UncheckedTransaction.from_slice cA cT cF cS v = none) ∧
    (∀ v t v₁, Transaction.from_slice cA cT cF v = some (t, v₁) →
      cS.fromSlice v₁ = none →
      UncheckedTransaction.from_slice cA cT cF cS v = none) := by
  refine ⟨?_, ?_, ?_, ?_, ?_⟩
  · intro v h
    simp [Transaction.from_slice, h]
  · intro v a v₁ h₁ h₂
    simp [Transaction.from_slice, h₁, h₂]
  · intro v a v₁ n v₂ h₁ h₂ h₃
    simp [Transaction.from_slice, h₁, h₂, h₃]
  · intro v h
    simp [UncheckedTransaction.from_slice, h]
  · intro v t v₁ h₁ h₂
    simp [UncheckedTransaction.from_slice, h₁, h₂]

/-- Witness for C5: on the empty buffer the signer decode fails, so both
composite decodes return `none`. -/
theorem decode_short_circuits_on_field_failure_witness :
    (fixedCodec 32).fromSlice [] = none ∧
    Transaction.from_slice (fixedCodec 32) u64Codec functionCodec [] = none ∧
    UncheckedTransaction.from_slice (fixedCodec 32) u64Codec functionCodec
      (fixedCodec 64) [] = none :=
  ⟨rfl,
   (decode_short_circuits_on_field_failure (fixedCodec 32) u64Codec functionCodec
     (fixedCodec 64)).1 [] rfl,
   (decode_short_circuits_on_field_failure (fixedCodec 32) u64Codec functionCodec
     (fixedCodec 64)).2.2.2.1 []
     ((decode_short_circuits_on_field_failure (fixedCodec 32) u64Codec functionCodec
       (fixedCodec 64)).1 [] rfl)⟩

/-- Claim C6: decoding any strict prefix of a valid encoding fails cleanly
with `none`, for the record and for the wrapper, given that the field codecs
round-trip and fail on insufficient bytes. -/
theorem truncated_decode_fails {A T F S : Type}
    (cA : SlicableImpl A) (cT : SlicableImpl T) (cF : SlicableImpl F)
    (cS : SlicableImpl S) (t : Transaction A T F) (s : S)
    (hA : RoundTrips cA t.signed) (hA' : FailsOnShort cA t.signed)
    (hT : RoundTrips cT t.nonce) (hT' : FailsOnShort cT t.nonce)
    (hF : RoundTrips cF t.function) (hF' : FailsOnShort cF t.function)
    (hS' : FailsOnShort cS s) :
    (∀ p q, p ++ q = Transaction.to_vec cA cT cF t → q ≠ [] →
      Transaction.from_slice cA cT cF p = none) ∧
    (∀ p q, p ++ q = UncheckedTransaction.to_vec cA cT cF cS ⟨t, s⟩ → q ≠ [] →
      UncheckedTransaction.from_slice cA cT cF cS p = none) := by
  constructor
  · intro p q hpq hq
    rw [Transaction.to_vec_flattened] at hpq
    rcases decode_step cA t.signed hA hA' p q _ hpq with h | ⟨p₁, hp₁, hpq₁, hs₁⟩
    · simp [Transaction.from_slice, h]
    · rcases decode_step cT t.nonce hT hT' p₁ q _ hpq₁ with h | ⟨p₂, hp₂, hpq₂, hs₂⟩
      · simp [Transaction.from_slice, hs₁, h]
      · have h₃ : cF.fromSlice p₂ = none := hF' p₂ q hpq₂ hq
        simp [Transaction.from_slice, hs₁, hs₂, h₃]
  · intro p q hpq hq
    rw [UncheckedTransaction.to_vec_fields] at hpq
    rcases decode_step cA t.signed hA hA' p q _ hpq with h | ⟨p₁, hp₁, hpq₁, hs₁⟩
    · simp [UncheckedTransaction.from_slice, Transaction.from_slice, h]
    · rcases decode_step cT t.nonce hT hT' p₁ q _ hpq₁ with h | ⟨p₂, hp₂, hpq₂, hs₂⟩
      · simp [UncheckedTransaction.from_slice, Transaction.from_slice, hs₁, h]
      · rcases decode_step cF t.function hF hF' p₂ q _ hpq₂ with h | ⟨p₃, hp₃, hpq₃, hs₃⟩
        · simp [UncheckedTransaction.from_slice, Transaction.from_slice, hs₁, hs₂, h]
        · have h₄ : cS.fromSlice p₃ = none := hS' p₃ q hpq₃ hq
          simp [UncheckedTransaction.from_slice, Transaction.from_slice,
            hs₁, hs₂, hs₃, h₄]

/-- Witness for C6: a 10-byte prefix of the concrete record's 49-byte
encoding and a 60-byte prefix of the concrete wrapper's 113-byte encoding
both decode to `none`. -/
theorem truncated_decode_fails_witness :
    Transaction.from_slice (fixedCodec 32) u64Codec functionCodec
      ((Transaction.to_vec (fixedCodec 32) u64Codec functionCodec tx₀).take 10) =
      none ∧
    UncheckedTransaction.from_slice (fixedCodec 32) u64Codec functionCodec
      (fixedCodec 64) ((UncheckedTransaction.to_vec (fixedCodec 32) u64Codec
        functionCodec (fixedCodec 64) utx₀).take 60) = none := by
  have h := truncated_decode_fails (fixedCodec 32) u64Codec functionCodec
    (fixedCodec 64) tx₀ (List.replicate 64 0)
    (fixedCodec_roundTrips 32 (List.replicate 32 1) rfl)
    (fixedCodec_failsOnShort 32 (List.replicate 32 1) rfl)
    u64Codec_roundTrips_999 (u64Codec_failsOnShort 999)
    functionCodec_roundTrips_ts (functionCodec_failsOnShort 135135)
    (fixedCodec_failsOnShort 64 (List.replicate 64 0) rfl)
  exact ⟨h.1 _ _ (List.take_append_drop 10 _) (by decide),
         h.2 _ _ (List.take_append_drop 60 _) (by decide)⟩

/-- Claim C7: the wrapper's Debug rendering is exactly the inner
transaction's rendering wrapped in `"UncheckedTransaction(..)"`, with the
signature omitted, so wrappers with equal inner transactions render
identically whatever their signatures. -/
theorem debug_rendering_omits_signature {A T F S : Type}
    (tFmt : Transaction A T F → String) (w₁ w₂ : UncheckedTransaction A T F S)
    (h : w₁.transaction = w₂.transaction) :
    UncheckedTransaction.fmtDebug tFmt w₁ =
      "UncheckedTransaction(" ++ tFmt w₁.transaction ++ ")" ∧
    UncheckedTransaction.fmtDebug tFmt w₁ = UncheckedTransaction.fmtDebug tFmt w₂ :=
  ⟨rfl, by simp [UncheckedTransaction.fmtDebug, h]⟩

/-- Witness for C7: the zero-signature and one-signature wrappers around
`tx₀` render to the same string. -/
theorem debug_rendering_omits_signature_witness :
    UncheckedTransaction.fmtDebug (fun t => Nat.repr t.nonce) utx₀ =
      "UncheckedTransaction(" ++ Nat.repr tx₀.nonce ++ ")" ∧
    UncheckedTransaction.fmtDebug (fun t => Nat.repr t.nonce) utx₀ =
      UncheckedTransaction.fmtDebug (fun t => Nat.repr t.nonce) utx₁ :=
  debug_rendering_omits_signature (fun t => Nat.repr t.nonce) utx₀ utx₁ rfl

/-- Claim C9: the wrapper's custom equality is a congruence for encoding —
wrappers that compare equal (element-wise equal signature bytes, equal
transaction fields) produce identical `to_vec` byte sequences, provided the
signature codec's bytes are determined by the signature's byte iterator (as
for a fixed-width byte-array signature). -/
theorem wrapper_eq_implies_equal_encodings {A T F S : Type}
    [DecidableEq A] [DecidableEq T] [DecidableEq F]
    (cA : SlicableImpl A) (cT : SlicableImpl T) (cF : SlicableImpl F)
    (cS : SlicableImpl S) (sigIter : S → List Byte)
    (hSig : ∀ s₁ s₂ : S, sigIter s₁ = sigIter s₂ → cS.toVec s₁ = cS.toVec s₂)
    (w₁ w₂ : UncheckedTransaction A T F S)
    (h : UncheckedTransaction.eq sigIter w₁ w₂ = true) :
    UncheckedTransaction.to_vec cA cT cF cS w₁ =
      UncheckedTransaction.to_vec cA cT cF cS w₂ := by
  obtain ⟨hs, h₁, h₂, h₃⟩ := (UncheckedTransaction.eq_iff_parts sigIter w₁ w₂).mp h
  rw [UncheckedTransaction.to_vec_fields, UncheckedTransaction.to_vec_fields,
    h₁, h₂, h₃, hSig _ _ hs]

/-- Witness for C9: the concrete wrapper compares equal to itself and the
congruence yields equal encodings. -/
theorem wrapper_eq_implies_equal_encodings_witness :
    UncheckedTransaction.eq (fun s => s) utx₀ utx₀ = true ∧
    UncheckedTransaction.to_vec (fixedCodec 32) u64Codec functionCodec
        (fixedCodec 64) utx₀ =
      UncheckedTransaction.to_vec (fixedCodec 32) u64Codec functionCodec
        (fixedCodec 64) utx₀ :=
  ⟨by decide,
   wrapper_eq_implies_equal_encodings (fixedCodec 32) u64Codec functionCodec
     (fixedCodec 64) (fun s => s) (fun _ _ hh => hh) utx₀ utx₀ (by decide)⟩

end Substrate
